import Mathlib

/-!
Verification of the reference-extraction and element-location engine of the
automated-selenium-script-generator backend (src/backend_api/src/api/main.py).

The development shallowly embeds the three core functions and the orchestrator:

* the regex-driven step parser (Python function named with a leading underscore,
  here called extract_element_reference), including a faithful backtracking
  matcher for the eight ordered patterns and the fallback pattern, with
  Python re.search leftmost-match, greedy, case-insensitive (re.IGNORECASE)
  semantics restricted to the constructs those nine patterns use;
* the element locator (find_element), including the BeautifulSoup attribute
  matching semantics of soup.find for string filters, list filters (the
  SoupStrainer multi-valued-attribute rules) and predicate filters over the
  document-order (pre-order) descendant sequence;
* the serializer (element_to_dict) and the per-step record builder of the
  endpoint parse_html_test_steps.

HTML parsing itself is the external collaborator (BeautifulSoup with the
html.parser builder); a parsed document is modelled as the forest of top-level
nodes, where element attributes are either plain strings or, for the
multi-valued class attribute, token lists — exactly the shapes that builder
produces. Concrete documents used below are annotated with the HTML they are
the parse of.
-/

namespace SelGen

/-- ASCII lowercase conversion; models how re.IGNORECASE compares the ASCII
pattern literals of the source patterns. -/
def asciiLower (c : Char) : Char :=
  if 'A' ≤ c ∧ c ≤ 'Z' then Char.ofNat (c.toNat + 32) else c

/-- Lowercase ASCII letter test. -/
def isLowerAlpha (c : Char) : Bool := 'a' ≤ c && c ≤ 'z'

/-- ASCII digit test. -/
def isDigitCh (c : Char) : Bool := '0' ≤ c && c ≤ '9'

/-- Python regex word character (the ASCII part of a word-char class, which is all
the source's step strings use). -/
def isWordChar (c : Char) : Bool := isLowerAlpha (asciiLower c) || isDigitCh c || c == '_'

/-- Python regex whitespace: space, tab, newline, carriage return, vertical tab,
form feed. -/
def isSpaceChar (c : Char) : Bool :=
  c == ' ' || c == '\t' || c == '\n' || c == '\r' || c == '\x0b' || c == '\x0c'

/-- Single or double quote, the class written as a bracket of the two quote
characters in the source patterns. -/
def isQuoteChar (c : Char) : Bool := c == '\'' || c == '"'

/-- Character classes occurring in the source's nine regex patterns. -/
inductive CharCls where
  | ws
  | idTok
  | classTok
  | notQuote
  | quote
  | wordDashSpace
deriving DecidableEq

/-- Membership test of each character class: ws is whitespace; idTok is the
class of word chars plus dash and colon; classTok additionally admits the space
character; notQuote is any non-quote character; quote is a quote character;
wordDashSpace is word chars plus dash plus whitespace. -/
def CharCls.test : CharCls → Char → Bool
  | .ws, c => isSpaceChar c
  | .idTok, c => isWordChar c || c == '-' || c == ':'
  | .classTok, c => isWordChar c || c == '-' || c == ':' || c == ' '
  | .notQuote, c => !(isQuoteChar c)
  | .quote, c => isQuoteChar c
  | .wordDashSpace, c => isWordChar c || c == '-' || isSpaceChar c

/-- Items of a regex pattern, covering exactly the constructs the source's nine
patterns use: a word boundary, a case-insensitive literal word, a single
required class character, an optional class character, star and plus greedy
class repetition, a capturing plus repetition, and a capturing alternation of
literal words. -/
inductive RItem where
  | wordB
  | litw (w : List Char)
  | one (c : CharCls)
  | opt (c : CharCls)
  | star (c : CharCls)
  | plus (c : CharCls)
  | grpPlus (c : CharCls)
  | grpAltLit (ws : List (List Char))
deriving DecidableEq

/-- Case-insensitive comparison of an input character against a lowercase
pattern literal character. -/
def litMatch (p c : Char) : Bool := asciiLower c == p

/-- Consume a literal word (case-insensitively) from the front of the input,
returning the rest. -/
def eatLit : List Char → List Char → Option (List Char)
  | [], s => some s
  | _ :: _, [] => none
  | p :: ps, c :: cs => if litMatch p c then eatLit ps cs else none

/-- Length of the maximal prefix of the input whose characters satisfy the
test; the greedy upper bound for a repetition. -/
def runLen (t : Char → Bool) : List Char → Nat
  | [] => 0
  | c :: cs => if t c then runLen t cs + 1 else 0

/-- Candidate repetition counts in greedy order: run, run-1, ..., lo. -/
def repKs (lo run : Nat) : List Nat := (List.range (run + 1 - lo)).map (fun i => run - i)

/-- The last character of a consumed chunk, or the previous character when the
chunk is empty; tracks the character to the left of the current position for
word-boundary tests. -/
def lastOr (prev : Option Char) (cs : List Char) : Option Char :=
  match cs.getLast? with
  | some c => some c
  | none => prev

/-- Word-boundary test between the previous character and the head of the
remaining input: exactly one side is a word character (ends of the string count
as non-word). -/
def boundaryOk (prev : Option Char) (s : List Char) : Bool :=
  (match prev with | some c => isWordChar c | none => false)
    != (match s with | c :: _ => isWordChar c | [] => false)

/-- Backtracking matcher for a pattern (list of items) at the current position:
prev is the character before the position, s the remaining input, caps the
captures accumulated so far. Greedy repetitions try the longest count first and
backtrack; an optional item prefers consuming; alternation is tried left to
right. This is the Python backtracking order for the constructs involved, so a
successful result carries the same captures re.search would report. -/
def matchItems : List RItem → Option Char → List Char → List String → Option (List String)
  | [], _, _, caps => some caps
  | .wordB :: rest, prev, s, caps =>
      if boundaryOk prev s then matchItems rest prev s caps else none
  | .litw w :: rest, prev, s, caps =>
      match eatLit w s with
      | some s2 => matchItems rest (lastOr prev (s.take w.length)) s2 caps
      | none => none
  | .one c :: rest, _, s, caps =>
      match s with
      | [] => none
      | x :: xs => if c.test x then matchItems rest (some x) xs caps else none
  | .opt c :: rest, prev, s, caps =>
      match s with
      | x :: xs =>
          if c.test x then
            match matchItems rest (some x) xs caps with
            | some r => some r
            | none => matchItems rest prev s caps
          else matchItems rest prev s caps
      | [] => matchItems rest prev s caps
  | .star c :: rest, prev, s, caps =>
      (repKs 0 (runLen c.test s)).findSome? fun k =>
        matchItems rest (lastOr prev (s.take k)) (s.drop k) caps
  | .plus c :: rest, prev, s, caps =>
      (repKs 1 (runLen c.test s)).findSome? fun k =>
        matchItems rest (lastOr prev (s.take k)) (s.drop k) caps
  | .grpPlus c :: rest, prev, s, caps =>
      (repKs 1 (runLen c.test s)).findSome? fun k =>
        matchItems rest (lastOr prev (s.take k)) (s.drop k) (caps ++ [String.mk (s.take k)])
  | .grpAltLit ws :: rest, prev, s, caps =>
      ws.findSome? fun w =>
        match eatLit w s with
        | some s2 => matchItems rest (lastOr prev (s.take w.length)) s2
            (caps ++ [String.mk (s.take w.length)])
        | none => none

/-- Scan of re.search: try the pattern at each position left to right,
returning the captures of the leftmost successful position. -/
def searchFrom (pat : List RItem) : Option Char → List Char → Option (List String)
  | prev, [] => matchItems pat prev [] []
  | prev, c :: cs =>
      match matchItems pat prev (c :: cs) [] with
      | some r => some r
      | none => searchFrom pat (some c) cs

/-- Python re.search of one of the nine source patterns over a step string,
case-insensitively, returning the capture groups of the leftmost match. -/
def reSearch (pat : List RItem) (t : String) : Option (List String) :=
  searchFrom pat none t.toList

/-- Source pattern 1: word boundary, literal word with, whitespace, literal id,
whitespace, optional quote, captured run of id-token characters, optional
quote. -/
def idPat : List RItem :=
  [.wordB, .litw "with".toList, .plus .ws, .litw "id".toList, .plus .ws,
   .opt .quote, .grpPlus .idTok, .opt .quote]

/-- Source pattern 2: as pattern 1 with literal name in place of id. -/
def namePat : List RItem :=
  [.wordB, .litw "with".toList, .plus .ws, .litw "name".toList, .plus .ws,
   .opt .quote, .grpPlus .idTok, .opt .quote]

/-- Shared tail of source patterns 3 and 4: literal with, whitespace, literal
class, whitespace, optional quote, captured run of class-token characters,
optional quote. -/
def clsTail : List RItem :=
  [.litw "with".toList, .plus .ws, .litw "class".toList, .plus .ws,
   .opt .quote, .grpPlus .classTok, .opt .quote]

/-- Source pattern 3: word boundary followed by the shared with-class tail. -/
def clsPat : List RItem := .wordB :: clsTail

/-- Source pattern 4: word boundary, literal element, whitespace, then the
same with-class tail as pattern 3. -/
def elemClsPat : List RItem := .wordB :: .litw "element".toList :: .plus .ws :: clsTail

/-- Source pattern 5: word boundary, literal text, optional whitespace, quote,
captured run of non-quote characters, quote. -/
def textPat : List RItem :=
  [.wordB, .litw "text".toList, .star .ws, .one .quote, .grpPlus .notQuote, .one .quote]

/-- Source pattern 6: word boundary, literal with, whitespace, literal text,
whitespace, quoted captured value. -/
def withTextPat : List RItem :=
  [.wordB, .litw "with".toList, .plus .ws, .litw "text".toList, .plus .ws,
   .one .quote, .grpPlus .notQuote, .one .quote]

/-- Source pattern 7: word boundary, literal where, whitespace, literal text,
whitespace, literal is, whitespace, quoted captured value. -/
def whereTextPat : List RItem :=
  [.wordB, .litw "where".toList, .plus .ws, .litw "text".toList, .plus .ws,
   .litw "is".toList, .plus .ws, .one .quote, .grpPlus .notQuote, .one .quote]

/-- Source pattern 8: word boundary, literal xpath, whitespace, quoted
captured value. -/
def xpathPat : List RItem :=
  [.wordB, .litw "xpath".toList, .plus .ws, .one .quote, .grpPlus .notQuote, .one .quote]

/-- Source fallback pattern: captured alternation of the literal hint words
button, input, element; whitespace; optional quote; captured run of
word/dash/whitespace characters; optional quote. Note there is no word
boundary, the whitespace after the hint word is required, and the captured
phrase needs at least one character. -/
def fallbackPat : List RItem :=
  [.grpAltLit ["button".toList, "input".toList, "element".toList], .plus .ws,
   .opt .quote, .grpPlus .wordDashSpace, .opt .quote]

/-- Python str.strip of whitespace from both ends. -/
def pyStrip (s : String) : String :=
  String.mk (((s.toList.dropWhile isSpaceChar).reverse.dropWhile isSpaceChar).reverse)

/-- Accumulator worker for pySplit. -/
def pySplitAux : List Char → List Char → List String
  | [], acc => if acc.isEmpty then [] else [String.mk acc.reverse]
  | c :: cs, acc =>
      if isSpaceChar c then
        if acc.isEmpty then pySplitAux cs []
        else String.mk acc.reverse :: pySplitAux cs []
      else pySplitAux cs (c :: acc)

/-- Python str.split with no arguments: split on whitespace runs, producing no
empty tokens. -/
def pySplit (s : String) : List String := pySplitAux s.toList []

/-- Structured extraction result. The source returns a dictionary carrying one
of the keys id, name, class, text, xpath; or the two keys type and text for the
fallback; or no keys at all. Each reachable dictionary shape is one
constructor. -/
inductive ElementRef where
  | id (v : String)
  | name (v : String)
  | cls (v : String)
  | text (v : String)
  | xpath (v : String)
  | hint (ty tx : String)
  | empty
deriving DecidableEq

/-- The ordered pattern table of the source: pairs of a pattern and the
dictionary key its capture is stored under, in source order. -/
def patternTable : List (List RItem × String) :=
  [(idPat, "id"), (namePat, "name"), (clsPat, "class"), (elemClsPat, "class"),
   (textPat, "text"), (withTextPat, "text"), (whereTextPat, "text"), (xpathPat, "xpath")]

/-- Build the single-key reference dictionary for a pattern-table key. -/
def mkRef (key v : String) : ElementRef :=
  if key == "id" then .id v
  else if key == "name" then .name v
  else if key == "class" then .cls v
  else if key == "text" then .text v
  else .xpath v

/-- The source's step parser: try the eight patterns in order and return the
first match's stripped capture under its key; otherwise try the fallback
pattern, whose two captures become the type and text fields; otherwise return
the empty reference. -/
def extract_element_reference (step : String) : ElementRef :=
  match patternTable.findSome? (fun pk =>
      (reSearch pk.1 step).map (fun caps => mkRef pk.2 (pyStrip (caps.getD 0 "")))) with
  | some r => r
  | none =>
      match reSearch fallbackPat step with
      | some caps => .hint (pyStrip (caps.getD 0 "")) (pyStrip (caps.getD 1 ""))
      | none => .empty

/-- The pattern table with rule 4 (the element-with-class pattern) removed;
comparison table for the dead-logic claim. -/
def patternTableNoRule4 : List (List RItem × String) :=
  [(idPat, "id"), (namePat, "name"), (clsPat, "class"),
   (textPat, "text"), (withTextPat, "text"), (whereTextPat, "text"), (xpathPat, "xpath")]

/-- Comparison definition, following the spec's words for the dead-logic
claim: the extraction function with rule 4 removed from the ordered rule list,
otherwise identical to extract_element_reference. -/
def extract_element_reference_norule4 (step : String) : ElementRef :=
  match patternTableNoRule4.findSome? (fun pk =>
      (reSearch pk.1 step).map (fun caps => mkRef pk.2 (pyStrip (caps.getD 0 "")))) with
  | some r => r
  | none =>
      match reSearch fallbackPat step with
      | some caps => .hint (pyStrip (caps.getD 0 "")) (pyStrip (caps.getD 1 ""))
      | none => .empty

/-- Attribute value as the html.parser builder of the external parsing library
produces it: a plain string, or a whitespace-split token list for the
multi-valued class attribute. -/
inductive AttrValue where
  | str (s : String)
  | multi (ts : List String)
deriving DecidableEq

/-- A node of the parsed tree: a tag element with attributes and children, or
a text node. A parsed document is the list of top-level nodes. -/
inductive Node where
  | elem (tag : String) (attrs : List (String × AttrValue)) (children : List Node)
  | textNode (s : String)

/-- All nodes of a forest in document order (pre-order), the order in which
the descendants iterator of the parsed document yields candidates to find. -/
def forestNodes : List Node → List Node
  | [] => []
  | .textNode s :: ns => .textNode s :: forestNodes ns
  | .elem t a cs :: ns => .elem t a cs :: (forestNodes cs ++ forestNodes ns)

/-- Concatenation of the stripped text-node contents of a forest, in document
order; the strip-mode get_text over children. -/
def getTextForest : List Node → String
  | [] => ""
  | .textNode s :: ns => pyStrip s ++ getTextForest ns
  | .elem _ _ cs :: ns => getTextForest cs ++ getTextForest ns

/-- The strip-mode get_text of one node: each descendant text string stripped
of surrounding whitespace and concatenated in document order. -/
def getTextStrip : Node → String
  | .textNode s => pyStrip s
  | .elem _ _ cs => getTextForest cs

/-- Tag-element test; only tag elements are match candidates for find. -/
def isElemNode : Node → Bool
  | .elem _ _ _ => true
  | .textNode _ => false

/-- Tag name of a node (text nodes have none). -/
def tagOf : Node → String
  | .elem t _ _ => t
  | .textNode _ => ""

/-- Attribute list of a node (text nodes have none). -/
def attrsOf : Node → List (String × AttrValue)
  | .elem _ a _ => a
  | .textNode _ => []

/-- Attribute lookup on a node, first binding wins, absent attribute is none. -/
def getAttr (n : Node) (k : String) : Option AttrValue :=
  ((attrsOf n).find? (fun p => p.1 == k)).map (fun p => p.2)

/-- SoupStrainer matching of an attribute value against a string filter:
a multi-valued attribute matches when one of its tokens, or the space-joined
whole value, equals the filter; an absent attribute matches only the empty
string filter; a string attribute matches by equality. -/
def matchesStr (mv : Option AttrValue) (v : String) : Bool :=
  match mv with
  | some (.multi ts) => ts.any (fun t => t == v) || (String.intercalate " " ts == v)
  | none => v == ""
  | some (.str s) => s == v

/-- SoupStrainer matching of an attribute value against a list filter: a
multi-valued attribute matches when one of its tokens equals one of the
filter's items, or the space-joined whole value equals one of them; an absent
attribute matches the empty filter list, or a filter containing an empty
string; a string attribute matches when it equals one of the items. This is
the any-of semantics the library applies when find receives a list as an
attribute filter. -/
def matchesList (mv : Option AttrValue) (vs : List String) : Bool :=
  match mv with
  | some (.multi ts) =>
      ts.any (fun t => vs.any (fun v => t == v)) || vs.any (fun v => String.intercalate " " ts == v)
  | none => vs.isEmpty || vs.any (fun v => v == "")
  | some (.str s) => vs.any (fun v => s == v)

/-- Test that the pattern characters are a prefix of the input characters. -/
def startsWithChars : List Char → List Char → Bool
  | [], _ => true
  | _ :: _, [] => false
  | a :: as, b :: bs => a == b && startsWithChars as bs

/-- Worker for the substring test: does the needle occur at some position. -/
def strContainsAux (needle : List Char) : List Char → Bool
  | [] => needle.isEmpty
  | c :: cs => startsWithChars needle (c :: cs) || strContainsAux needle cs

/-- Python substring membership: the needle occurs contiguously in the
haystack (an empty needle always occurs). -/
def strContains (hay needle : String) : Bool := strContainsAux needle.toList hay.toList

/-- Result of a successful location: the method label and the matched node,
the two keys of the dictionary the source locator returns. -/
structure MatchInfo where
  method : String
  element : Node

/-- Find of the parsed document with a single string-valued attribute filter:
first tag element in document order whose attribute matches. -/
def findAttrStr (doc : List Node) (k v : String) : Option Node :=
  (forestNodes doc).find? (fun n => isElemNode n && matchesStr (getAttr n k) v)

/-- Find with a list-valued attribute filter (the class lookup path). -/
def findAttrList (doc : List Node) (k : String) (vs : List String) : Option Node :=
  (forestNodes doc).find? (fun n => isElemNode n && matchesList (getAttr n k) vs)

/-- Find with a predicate over tags (the lambda filters of the text search). -/
def findByPred (doc : List Node) (p : Node → Bool) : Option Node :=
  (forestNodes doc).find? (fun n => isElemNode n && p n)

/-- The two-phase text search of the locator: first the exact phase over the
whole document, then, only if it found nothing, the substring phase. -/
def textTwoPhase (doc : List Node) (t : String) : Option MatchInfo :=
  match findByPred doc (fun n => getTextStrip n == t) with
  | some el => some ⟨"text_exact", el⟩
  | none => (findByPred doc (fun n => strContains (getTextStrip n) t)).map
      (fun el => ⟨"text_contains", el⟩)

/-- The source locator cascade. Each reachable reference dictionary holds at
most one of the keys id, name, class, text (the fallback reference holds type
and text, and only its text key is consulted), so the source's sequence of
key-membership tests with fall-through reduces to this case split: a failed
lookup for the only present key falls through every remaining test and returns
no match. An xpath reference returns no match without attempting resolution,
and an empty reference matches nothing. -/
def find_element (doc : List Node) : ElementRef → Option MatchInfo
  | .id v => (findAttrStr doc "id" v).map (fun el => ⟨"id", el⟩)
  | .name v => (findAttrStr doc "name" v).map (fun el => ⟨"name", el⟩)
  | .cls v => (findAttrList doc "class" (pySplit v)).map (fun el => ⟨"class", el⟩)
  | .text v => textTwoPhase doc v
  | .hint _ tx => textTwoPhase doc tx
  | .xpath _ => none
  | .empty => none

/-- Serialized element snapshot: the empty dictionary, or the three keys tag,
attributes (a copy of the node's attribute mapping) and text. -/
inductive Snapshot where
  | empty
  | mk (tag : String) (attributes : List (String × AttrValue)) (text : String)
deriving DecidableEq

/-- The source serializer: a missing element serializes to the empty
dictionary; a tag element to its tag name, attribute mapping and strip-mode
text. The locator only ever hands tag elements to the serializer, so the text
node case is unreachable and also maps to the empty dictionary. -/
def element_to_dict : Option Node → Snapshot
  | none => Snapshot.empty
  | some n =>
      if isElemNode n then Snapshot.mk (tagOf n) (attrsOf n) (getTextStrip n)
      else Snapshot.empty

/-- Attribute lookup inside a serialized snapshot. -/
def snapshotAttr : Snapshot → String → Option AttrValue
  | Snapshot.empty, _ => none
  | Snapshot.mk _ a _, k => (a.find? (fun p => p.1 == k)).map (fun p => p.2)

/-- A test step of the request: its description string. -/
structure TestStep where
  description : String
deriving DecidableEq

/-- One record of the endpoint response. -/
structure ElementMatch where
  step_index : Nat
  step_description : String
  matched_element : Snapshot
  match_method : String
deriving DecidableEq

/-- The per-step body of the endpoint loop: extract, locate, serialize. When
location fails the matched element is the empty dictionary and the method is
the not-found label; a successful location always carries a (truthy) node. -/
def stepRecord (doc : List Node) (idx : Nat) (desc : String) : ElementMatch :=
  match find_element doc (extract_element_reference desc) with
  | some m => ⟨idx, desc, element_to_dict (some m.element), m.method⟩
  | none => ⟨idx, desc, Snapshot.empty, "not found"⟩

/-- The endpoint orchestrator over the parsed document: one record per step,
in enumeration order. -/
def parse_html_test_steps (doc : List Node) (steps : List TestStep) : List ElementMatch :=
  steps.enum.map (fun p => stepRecord doc p.1 p.2.description)

/-- Amended-claim class predicate, written from the amended wording of the
class-locator claim: the node's class token list shares at least one token
with the supplied tokens, or its space-joined class value equals one of them
(any-of matching); a plain-string class value matches when it equals one of
the supplied tokens, and a node without a class attribute never matches. -/
def anyClassMatch (supplied : List String) (n : Node) : Bool :=
  match getAttr n "class" with
  | some (AttrValue.multi ts) =>
      ts.any (fun t => supplied.contains t) || supplied.contains (String.intercalate " " ts)
  | some (AttrValue.str s) => supplied.contains s
  | none => false

/-- Parse of the scenario-B HTML consisting of one input tag with a name
attribute: a single childless input element. -/
def docScenarioB : List Node := [Node.elem "input" [("name", AttrValue.str "searchBox")] []]

/-- Parse of two sibling div tags whose class attributes are the single token
a and the token pair a b respectively, each with a text child. -/
def docClassAB : List Node :=
  [Node.elem "div" [("class", AttrValue.multi ["a"])] [Node.textNode "x"],
   Node.elem "div" [("class", AttrValue.multi ["a", "b"])] [Node.textNode "y"]]

/-- Parse of two sibling div tags: the first contains the target only as a
substring, the second equals the target exactly. -/
def docTextPhase : List Node :=
  [Node.elem "div" [] [Node.textNode "Welcome to the site"],
   Node.elem "div" [] [Node.textNode "Welcome"]]

end SelGen

namespace SelGen

/-! Helper lemmas -/

theorem stringMk_ne_empty {l : List Char} (h : l ≠ []) : String.mk l ≠ "" := by
  intro hc
  have hd := congrArg String.data hc
  simp at hd
  exact h hd

theorem pySplitAux_ne_empty :
    ∀ (cs acc : List Char), ∀ x ∈ pySplitAux cs acc, x ≠ "" := by
  intro cs
  induction cs with
  | nil =>
      intro acc x hx
      unfold pySplitAux at hx
      by_cases ha : acc.isEmpty
      · simp [ha] at hx
      · simp [ha] at hx
        subst hx
        exact stringMk_ne_empty (by simpa using ha)
  | cons c cs ih =>
      intro acc x hx
      unfold pySplitAux at hx
      by_cases hsp : isSpaceChar c
      · by_cases ha : acc.isEmpty
        · simp [hsp, ha] at hx
          exact ih [] x hx
        · simp [hsp, ha] at hx
          rcases hx with hx | hx
          · subst hx
            exact stringMk_ne_empty (by simpa using ha)
          · exact ih [] x hx
      · simp [hsp] at hx
        exact ih (c :: acc) x hx

theorem pySplit_ne_empty (s : String) : ∀ x ∈ pySplit s, x ≠ "" :=
  pySplitAux_ne_empty s.toList []

theorem matchesList_eq_anyClassMatch (n : Node) (vs : List String)
    (hne : vs ≠ []) (hnil : ∀ x ∈ vs, x ≠ "") :
    matchesList (getAttr n "class") vs = anyClassMatch vs n := by
  unfold anyClassMatch
  cases hA : getAttr n "class" with
  | none =>
      have h1 : vs.isEmpty = false := by
        cases vs with
        | nil => exact absurd rfl hne
        | cons a l => rfl
      have h2 : vs.any (fun v => v == "") = false :=
        List.any_eq_false.mpr (fun x hx => by simpa using hnil x hx)
      simp [matchesList, h1, h2]
  | some av =>
      cases av with
      | multi ts => simp only [matchesList, List.contains_eq_any_beq]
      | str s => simp only [matchesList, List.contains_eq_any_beq]

theorem find_map_lbl {l : List Node} {q : Node → Bool} {lbl : String} {mi : MatchInfo}
    (h : (l.find? (fun n => isElemNode n && q n)).map
        (fun el => (⟨lbl, el⟩ : MatchInfo)) = some mi) :
    mi.method = lbl ∧ isElemNode mi.element = true := by
  obtain ⟨el, hel, hmi⟩ := Option.map_eq_some'.mp h
  have hp := List.find?_some hel
  subst hmi
  refine ⟨rfl, ?_⟩
  have hsplit : isElemNode el = true ∧ q el = true := by simpa using hp
  exact hsplit.1

theorem textTwoPhase_some_facts {doc : List Node} {t : String} {mi : MatchInfo}
    (h : textTwoPhase doc t = some mi) :
    mi.method ≠ "not found" ∧ isElemNode mi.element = true := by
  unfold textTwoPhase at h
  split at h
  · cases h
    rename_i el heq
    unfold findByPred at heq
    have hp := List.find?_some heq
    refine ⟨by show ("text_exact" : String) ≠ "not found"; decide, ?_⟩
    have hsplit : isElemNode el = true ∧ (getTextStrip el == t) = true := by simpa using hp
    exact hsplit.1
  · unfold findByPred at h
    have hl := find_map_lbl h
    exact ⟨by rw [hl.1]; decide, hl.2⟩

theorem find_element_some_facts {doc : List Node} {ref : ElementRef} {mi : MatchInfo}
    (h : find_element doc ref = some mi) :
    mi.method ≠ "not found" ∧ isElemNode mi.element = true := by
  cases ref with
  | id v =>
      simp only [find_element] at h
      unfold findAttrStr at h
      have hl := find_map_lbl h
      exact ⟨by rw [hl.1]; decide, hl.2⟩
  | name v =>
      simp only [find_element] at h
      unfold findAttrStr at h
      have hl := find_map_lbl h
      exact ⟨by rw [hl.1]; decide, hl.2⟩
  | cls v =>
      simp only [find_element] at h
      unfold findAttrList at h
      have hl := find_map_lbl h
      exact ⟨by rw [hl.1]; decide, hl.2⟩
  | text v =>
      simp only [find_element] at h
      exact textTwoPhase_some_facts h
  | hint ty tx =>
      simp only [find_element] at h
      exact textTwoPhase_some_facts h
  | xpath v => exact absurd h (by simp [find_element])
  | empty => exact absurd h (by simp [find_element])

theorem stepRecord_index (doc : List Node) (idx : Nat) (desc : String) :
    (stepRecord doc idx desc).step_index = idx := by
  unfold stepRecord
  cases find_element doc (extract_element_reference desc) <;> rfl

theorem stepRecord_desc (doc : List Node) (idx : Nat) (desc : String) :
    (stepRecord doc idx desc).step_description = desc := by
  unfold stepRecord
  cases find_element doc (extract_element_reference desc) <;> rfl

/-! Claim theorems -/

/-- C1: for every parsed document and every ordered sequence of test steps, the
orchestrator returns exactly one record per step, in input order, where the
record at position i has step index i and carries the i-th step's description
verbatim. -/
theorem c1_match_all_shape (doc : List Node) (steps : List TestStep) :
    (parse_html_test_steps doc steps).length = steps.length ∧
    ∀ i : Nat, i < steps.length →
      ∃ r, (parse_html_test_steps doc steps).get? i = some r ∧
        r.step_index = i ∧ (steps.get? i).map TestStep.description = some r.step_description := by
  constructor
  · simp [parse_html_test_steps]
  · intro i hi
    cases hst : steps.get? i with
    | none =>
        exact absurd (List.get?_eq_none.mp hst) (by omega)
    | some st =>
        refine ⟨stepRecord doc i st.description, ?_, stepRecord_index doc i st.description, ?_⟩
        · have h1 : (parse_html_test_steps doc steps).get? i
              = (steps.enum.get? i).map (fun p => stepRecord doc p.1 p.2.description) := by
            unfold parse_html_test_steps
            exact List.get?_map _ _ _
          rw [h1, List.get?_enum, hst]
          rfl
        · rw [stepRecord_desc]
          rfl

/-- Witness for C1 at a concrete document and step list. -/
theorem c1_witness :
    0 < ([⟨"Wait five seconds"⟩] : List TestStep).length ∧
    ∃ r, (parse_html_test_steps [] [⟨"Wait five seconds"⟩]).get? 0 = some r ∧
      r.step_index = 0 ∧
      (([⟨"Wait five seconds"⟩] : List TestStep).get? 0).map TestStep.description
        = some r.step_description :=
  ⟨by decide, (c1_match_all_shape [] [⟨"Wait five seconds"⟩]).2 0 (by decide)⟩

/-- C9: the orchestrator is deterministic; its output depends only on the
parsed document and the step list, so identical inputs give identical result
sequences (the embedding is a pure function of its arguments). -/
theorem c9_deterministic (doc1 doc2 : List Node) (steps1 steps2 : List TestStep)
    (hd : doc1 = doc2) (hs : steps1 = steps2) :
    parse_html_test_steps doc1 steps1 = parse_html_test_steps doc2 steps2 := by
  rw [hd, hs]

/-- Witness for C9 at concrete equal inputs. -/
theorem c9_witness :
    (docScenarioB = docScenarioB) ∧
    ([⟨"Wait"⟩] : List TestStep) = [⟨"Wait"⟩] ∧
    parse_html_test_steps docScenarioB [⟨"Wait"⟩]
      = parse_html_test_steps docScenarioB [⟨"Wait"⟩] :=
  ⟨rfl, rfl, c9_deterministic docScenarioB docScenarioB [⟨"Wait"⟩] [⟨"Wait"⟩] rfl rfl⟩

/-- C7: an xpath reference is never resolved; the locator returns no match
(and, being a total function, raises nothing), and the corresponding record
carries the not-found label with the empty snapshot. -/
theorem c7_xpath_not_found (doc : List Node) (v : String) :
    find_element doc (ElementRef.xpath v) = none ∧
    ∀ (idx : Nat) (desc : String), extract_element_reference desc = ElementRef.xpath v →
      stepRecord doc idx desc = ⟨idx, desc, Snapshot.empty, "not found"⟩ := by
  refine ⟨rfl, ?_⟩
  intro idx desc h
  unfold stepRecord
  rw [h]
  rfl

/-- Witness for C7 at a concrete xpath step. -/
theorem c7_witness :
    extract_element_reference "Go to xpath '//a'" = ElementRef.xpath "//a" ∧
    stepRecord [] 0 "Go to xpath '//a'"
      = ⟨0, "Go to xpath '//a'", Snapshot.empty, "not found"⟩ :=
  ⟨rfl, (c7_xpath_not_found [] "//a").2 0 "Go to xpath '//a'" rfl⟩

/-- C8: serializing a missing node yields the empty snapshot, and in every
record the method label is the not-found label exactly when the matched
element is the empty snapshot: every found match (necessarily a tag element)
serializes to a non-empty snapshot carrying its tag name, and every miss to
the empty snapshot. -/
theorem c8_not_found_iff_empty (doc : List Node) (idx : Nat) (desc : String) :
    element_to_dict none = Snapshot.empty ∧
    ((stepRecord doc idx desc).match_method = "not found" ↔
      (stepRecord doc idx desc).matched_element = Snapshot.empty) := by
  refine ⟨rfl, ?_⟩
  unfold stepRecord
  cases hmi : find_element doc (extract_element_reference desc) with
  | none => simp
  | some mi =>
      have hfacts := find_element_some_facts hmi
      simp only [element_to_dict, hfacts.2, if_true]
      constructor
      · intro hc
        exact absurd hc hfacts.1
      · intro hc
        exact absurd hc (by simp)

/-- C5 counterexample: the step consisting of the words Click the button
contains the tag-hint word button (as its final word) and matches none of
rules 1 through 8, yet extraction returns the empty reference, not a fallback
reference, because the fallback pattern requires whitespace and a phrase
character after the hint word. -/
theorem c5_counterexample :
    extract_element_reference "Click the button" = ElementRef.empty ∧
    strContains "Click the button" "button" = true :=
  ⟨rfl, rfl⟩

/-- C5 amended: on a step where rules 1 through 8 all fail, extraction returns
the fallback reference built from the two captures exactly when the fallback
pattern matches, that is, when a hint word is followed by at least one
whitespace character and at least one word, dash or whitespace character; when
the fallback pattern has no match (for example a step that ends at the hint
word) the result is the empty reference. -/
theorem c5_amended (step : String)
    (h1 : ∀ pk ∈ patternTable, reSearch pk.1 step = none) :
    (∀ caps, reSearch fallbackPat step = some caps →
        extract_element_reference step
          = ElementRef.hint (pyStrip (caps.getD 0 "")) (pyStrip (caps.getD 1 ""))) ∧
    (reSearch fallbackPat step = none → extract_element_reference step = ElementRef.empty) := by
  have hz : patternTable.findSome? (fun pk =>
      (reSearch pk.1 step).map (fun caps => mkRef pk.2 (pyStrip (caps.getD 0 "")))) = none := by
    rw [List.findSome?_eq_none_iff]
    intro pk hpk
    rw [h1 pk hpk]
    rfl
  constructor
  · intro caps hc
    unfold extract_element_reference
    rw [hz, hc]
  · intro hc
    unfold extract_element_reference
    rw [hz, hc]

/-- Witness for C5 amended at a concrete step with a hint word and a phrase. -/
theorem c5_witness :
    (∀ pk ∈ patternTable, reSearch pk.1 "Click the button foo" = none) ∧
    reSearch fallbackPat "Click the button foo" = some ["button", "foo"] ∧
    extract_element_reference "Click the button foo" = ElementRef.hint "button" "foo" :=
  ⟨by decide, rfl, (c5_amended "Click the button foo" (by decide)).1 ["button", "foo"] rfl⟩

/-- C6: the extraction rules are applied in fixed priority order; on any step
where the id pattern (rule 1) has a match, and some text pattern (rules 5 to
7) also has a match, extraction returns the id reference built from rule 1's
capture, never a text reference. -/
theorem c6_extraction_priority (step : String) (caps : List String)
    (h1 : reSearch idPat step = some caps)
    (h2 : reSearch textPat step ≠ none ∨ reSearch withTextPat step ≠ none ∨
      reSearch whereTextPat step ≠ none) :
    extract_element_reference step = ElementRef.id (pyStrip (caps.getD 0 "")) := by
  unfold extract_element_reference patternTable
  simp [List.findSome?_cons, h1, mkRef]

/-- Witness for C6 at a concrete step containing both an id pattern and a
with-text pattern. -/
theorem c6_witness :
    reSearch idPat "Click the button with id submitBtn and with text 'Hi'"
      = some ["submitBtn"] ∧
    reSearch withTextPat "Click the button with id submitBtn and with text 'Hi'" ≠ none ∧
    extract_element_reference "Click the button with id submitBtn and with text 'Hi'"
      = ElementRef.id "submitBtn" :=
  ⟨rfl, by decide,
    c6_extraction_priority "Click the button with id submitBtn and with text 'Hi'"
      ["submitBtn"] rfl (Or.inr (Or.inl (by decide)))⟩

end SelGen

namespace SelGen

/-- C2 counterexample: with supplied class value a b (tokens a and b), the
locator returns the first div, whose class token list is only a — a node
containing only some of the supplied tokens — even though a later node carries
both tokens. The subset-match reading of the claim is therefore false: the
library's list filter matches any-of, not all-of. The document is the parse of
two sibling divs with class a and class a b. -/
theorem c2_counterexample :
    find_element docClassAB (ElementRef.cls "a b")
      = some ⟨"class", Node.elem "div" [("class", AttrValue.multi ["a"])] [Node.textNode "x"]⟩ ∧
    "b" ∈ pySplit "a b" ∧
    getAttr (Node.elem "div" [("class", AttrValue.multi ["a"])] [Node.textNode "x"]) "class"
      = some (AttrValue.multi ["a"]) ∧
    "b" ∉ (["a"] : List String) := by
  refine ⟨?_, by decide, rfl, by decide⟩
  have hf : forestNodes docClassAB
      = [Node.elem "div" [("class", AttrValue.multi ["a"])] [Node.textNode "x"],
         Node.textNode "x",
         Node.elem "div" [("class", AttrValue.multi ["a", "b"])] [Node.textNode "y"],
         Node.textNode "y"] := by
    simp [docClassAB, forestNodes]
  simp only [find_element]
  unfold findAttrList
  rw [hf]
  rfl

/-- C2 amended: for a reference whose class kind is set and splits into at
least one token, the locator returns the first node in document (pre-order)
order whose class token list shares at least one token with the supplied
tokens, or whose space-joined class value equals one of them (any-of matching,
not subset matching), with match method class; a node containing only some of
the tokens can be returned. -/
theorem c2_amended (doc : List Node) (v : String) (hne : pySplit v ≠ []) :
    find_element doc (ElementRef.cls v)
      = ((forestNodes doc).find? (fun n => isElemNode n && anyClassMatch (pySplit v) n)).map
        (fun el => (⟨"class", el⟩ : MatchInfo)) := by
  simp only [find_element]
  unfold findAttrList
  have hp : (fun n => isElemNode n && matchesList (getAttr n "class") (pySplit v))
      = (fun n => isElemNode n && anyClassMatch (pySplit v) n) := by
    funext n
    rw [matchesList_eq_anyClassMatch n (pySplit v) hne (pySplit_ne_empty v)]
  rw [hp]

/-- Witness for C2 amended at the concrete two-div document. -/
theorem c2_witness :
    pySplit "a b" ≠ [] ∧
    find_element docClassAB (ElementRef.cls "a b")
      = ((forestNodes docClassAB).find?
          (fun n => isElemNode n && anyClassMatch (pySplit "a b") n)).map
        (fun el => (⟨"class", el⟩ : MatchInfo)) :=
  ⟨by decide, c2_amended docClassAB "a b" (by decide)⟩

/-- C3: on the parse of an input tag with name searchBox and the step asking
to type into the input with name searchBox, the single record has match method
name and its snapshot's attribute mapping maps name to searchBox. -/
theorem c3_scenario_b :
    ∃ r, parse_html_test_steps docScenarioB
        [⟨"Type 'foo' in the input with name searchBox"⟩] = [r] ∧
      r.match_method = "name" ∧
      snapshotAttr r.matched_element "name" = some (AttrValue.str "searchBox") := by
  have hf : forestNodes docScenarioB
      = [Node.elem "input" [("name", AttrValue.str "searchBox")] []] := by
    simp [docScenarioB, forestNodes]
  have he : extract_element_reference "Type 'foo' in the input with name searchBox"
      = ElementRef.name "searchBox" := rfl
  have hm : find_element docScenarioB (ElementRef.name "searchBox")
      = some ⟨"name", Node.elem "input" [("name", AttrValue.str "searchBox")] []⟩ := by
    simp only [find_element]
    unfold findAttrStr
    rw [hf]
    rfl
  have hts : getTextStrip (Node.elem "input" [("name", AttrValue.str "searchBox")] []) = "" := by
    simp [getTextStrip, getTextForest]
  have hd : element_to_dict
        (some (Node.elem "input" [("name", AttrValue.str "searchBox")] []))
      = Snapshot.mk "input" [("name", AttrValue.str "searchBox")] "" := by
    simp [element_to_dict, isElemNode, tagOf, attrsOf, hts]
  refine ⟨⟨0, "Type 'foo' in the input with name searchBox",
      Snapshot.mk "input" [("name", AttrValue.str "searchBox")] "", "name"⟩, ?_, rfl, rfl⟩
  unfold parse_html_test_steps
  simp [List.enum, List.enumFrom, stepRecord, he, hm, hd]

/-- C4: the text locator is two-phase over the whole document. If the first
node (in document order) whose strip-mode text equals the target is n, the
result is method text_exact with n — so an exact match is always preferred,
even when a different node earlier in document order contains the target only
as a substring. The method text_contains can only be reported when no node in
the document matches exactly. -/
theorem c4_text_two_phase (doc : List Node) (t : String) :
    (∀ n, (forestNodes doc).find? (fun m => isElemNode m && (getTextStrip m == t)) = some n →
        find_element doc (ElementRef.text t) = some ⟨"text_exact", n⟩) ∧
    (∀ mi, find_element doc (ElementRef.text t) = some mi → mi.method = "text_contains" →
        (forestNodes doc).find? (fun m => isElemNode m && (getTextStrip m == t)) = none) := by
  constructor
  · intro n h
    simp only [find_element, textTwoPhase, findByPred]
    rw [h]
  · intro mi hmi hmeth
    simp only [find_element, textTwoPhase, findByPred] at hmi
    cases hfind : (forestNodes doc).find? (fun m => isElemNode m && (getTextStrip m == t)) with
    | none => rfl
    | some el =>
        rw [hfind] at hmi
        cases hmi
        exact absurd hmeth (by show ("text_exact" : String) ≠ "text_contains"; decide)

/-- Witness for C4 at a document whose first div contains the target only as a
substring and whose second div matches it exactly. -/
theorem c4_witness :
    (forestNodes docTextPhase).find?
        (fun m => isElemNode m && (getTextStrip m == "Welcome"))
      = some (Node.elem "div" [] [Node.textNode "Welcome"]) ∧
    find_element docTextPhase (ElementRef.text "Welcome")
      = some ⟨"text_exact", Node.elem "div" [] [Node.textNode "Welcome"]⟩ := by
  have hfind : (forestNodes docTextPhase).find?
        (fun m => isElemNode m && (getTextStrip m == "Welcome"))
      = some (Node.elem "div" [] [Node.textNode "Welcome"]) := by
    simp [docTextPhase, forestNodes, List.find?, isElemNode, getTextStrip, getTextForest, pyStrip]
    rfl
  exact ⟨hfind, (c4_text_two_phase docTextPhase "Welcome").1 _ hfind⟩

end SelGen

namespace SelGen

/-! Engine lemmas for the dead-rule claim -/

theorem searchFrom_head_ne {pat : List RItem} {prev : Option Char} {s : List Char}
    (h : matchItems pat prev s [] ≠ none) : searchFrom pat prev s ≠ none := by
  cases s with
  | nil =>
      rw [searchFrom]
      exact h
  | cons c cs =>
      cases hm : matchItems pat prev (c :: cs) [] with
      | none => exact absurd hm h
      | some r =>
          rw [searchFrom, hm]
          simp

theorem searchFrom_tail_ne {pat : List RItem} {prev : Option Char} {c : Char} {cs : List Char}
    (h : searchFrom pat (some c) cs ≠ none) : searchFrom pat prev (c :: cs) ≠ none := by
  cases hm : matchItems pat prev (c :: cs) [] with
  | some r =>
      rw [searchFrom, hm]
      simp
  | none =>
      rw [searchFrom, hm]
      exact h

theorem searchFrom_cons_ne {pat : List RItem} {prev : Option Char} {c : Char} {cs : List Char}
    (h : searchFrom pat prev (c :: cs) ≠ none)
    (hm : matchItems pat prev (c :: cs) [] = none) : searchFrom pat (some c) cs ≠ none := by
  intro hc
  apply h
  rw [searchFrom, hm]
  exact hc

theorem eatLit_eq_drop : ∀ (w s s2 : List Char), eatLit w s = some s2 → s2 = s.drop w.length := by
  intro w
  induction w with
  | nil =>
      intro s s2 h
      cases h
      rfl
  | cons p ps ih =>
      intro s s2 h
      cases s with
      | nil => exact absurd h (by simp [eatLit])
      | cons c cs =>
          unfold eatLit at h
          by_cases hl : litMatch p c
          · rw [if_pos hl] at h
            have := ih cs s2 h
            simpa using this
          · rw [if_neg hl] at h
            exact absurd h (by simp)

theorem eatLit_head {p : Char} {ps s s2 : List Char} (h : eatLit (p :: ps) s = some s2) :
    ∃ x xs, s = x :: xs ∧ litMatch p x = true := by
  cases s with
  | nil => exact absurd h (by simp [eatLit])
  | cons c cs =>
      by_cases hl : litMatch p c
      · exact ⟨c, cs, rfl, hl⟩
      · unfold eatLit at h
        rw [if_neg hl] at h
        exact absurd h (by simp)

theorem runLen_le_length (t : Char → Bool) : ∀ s : List Char, runLen t s ≤ s.length := by
  intro s
  induction s with
  | nil => simp [runLen]
  | cons c cs ih =>
      unfold runLen
      cases h : t c
      · simp [h]
      · simp [h]
        omega

theorem take_runLen_last (t : Char → Bool) :
    ∀ (s : List Char) (k : Nat), 1 ≤ k → k ≤ runLen t s →
      ∃ c, (s.take k).getLast? = some c ∧ t c = true := by
  intro s
  induction s with
  | nil =>
      intro k h1 h2
      simp [runLen] at h2
      omega
  | cons x xs ih =>
      intro k h1 h2
      unfold runLen at h2
      by_cases hx : t x
      · rw [if_pos hx] at h2
        match k, h1 with
        | 1, _ => exact ⟨x, by simp, hx⟩
        | (k' + 2), _ =>
            have h2' : k' + 1 ≤ runLen t xs := by omega
            obtain ⟨c, hc, htc⟩ := ih (k' + 1) (by omega) h2'
            refine ⟨c, ?_, htc⟩
            have hlen : xs.take (k' + 1) ≠ [] := by
              have hrl : runLen t xs ≤ xs.length := runLen_le_length t xs
              have hxs : 1 ≤ xs.length := by omega
              cases hxs' : xs with
              | nil => rw [hxs'] at hxs; simp at hxs
              | cons y ys => simp [hxs']
            have hstep : (x :: xs).take (k' + 2) = x :: xs.take (k' + 1) := rfl
            rw [hstep]
            cases htk : xs.take (k' + 1) with
            | nil => exact absurd htk hlen
            | cons y ys =>
                rw [htk] at hc
                calc (x :: y :: ys).getLast? = (y :: ys).getLast? := rfl
                _ = some c := hc
      · rw [if_neg hx] at h2
        omega

theorem mem_repKs {lo run k : Nat} (h : k ∈ repKs lo run) : lo ≤ k ∧ k ≤ run := by
  unfold repKs at h
  obtain ⟨i, hi, hk⟩ := List.mem_map.mp h
  have := List.mem_range.mp hi
  omega

theorem matchItems_wordB {rest : List RItem} {prev : Option Char} {s : List Char}
    {caps r : List String} (h : matchItems (.wordB :: rest) prev s caps = some r) :
    boundaryOk prev s = true ∧ matchItems rest prev s caps = some r := by
  simp only [matchItems] at h
  by_cases hb : boundaryOk prev s
  · rw [if_pos hb] at h
    exact ⟨hb, h⟩
  · rw [if_neg hb] at h
    exact absurd h (by simp)

theorem matchItems_litw_some {w : List Char} {rest : List RItem} {prev : Option Char}
    {s : List Char} {caps r : List String}
    (h : matchItems (.litw w :: rest) prev s caps = some r) :
    eatLit w s = some (s.drop w.length) ∧
      matchItems rest (lastOr prev (s.take w.length)) (s.drop w.length) caps = some r := by
  simp only [matchItems] at h
  cases he : eatLit w s with
  | none =>
      rw [he] at h
      exact absurd h (by simp)
  | some s2 =>
      rw [he] at h
      have hd := eatLit_eq_drop w s s2 he
      subst hd
      exact ⟨rfl, h⟩

theorem matchItems_plus_some {cl : CharCls} {rest : List RItem} {prev : Option Char}
    {s : List Char} {caps r : List String}
    (h : matchItems (.plus cl :: rest) prev s caps = some r) :
    ∃ k ch, 1 ≤ k ∧ k ≤ runLen cl.test s ∧ (s.take k).getLast? = some ch ∧
      cl.test ch = true ∧ matchItems rest (some ch) (s.drop k) caps = some r := by
  simp only [matchItems] at h
  obtain ⟨k, hk, hbody⟩ := List.exists_of_findSome?_eq_some h
  obtain ⟨hk1, hk2⟩ := mem_repKs hk
  obtain ⟨ch, hch, htc⟩ := take_runLen_last cl.test s k hk1 hk2
  refine ⟨k, ch, hk1, hk2, hch, htc, ?_⟩
  have hlast : lastOr prev (s.take k) = some ch := by
    unfold lastOr
    rw [hch]
  rw [hlast] at hbody
  exact hbody

theorem isWordChar_of_space {c : Char} (h : isSpaceChar c = true) : isWordChar c = false := by
  unfold isSpaceChar at h
  simp only [Bool.or_eq_true, beq_iff_eq] at h
  have hc : c = ' ' ∨ c = '\t' ∨ c = '\n' ∨ c = '\r' ∨ c = '\x0b' ∨ c = '\x0c' := by
    tauto
  rcases hc with h | h | h | h | h | h <;> subst h <;> decide

theorem isWordChar_of_litMatch {p c : Char} (hp : isLowerAlpha p = true)
    (h : litMatch p c = true) : isWordChar c = true := by
  unfold litMatch at h
  have hlow : asciiLower c = p := by simpa using h
  unfold isWordChar
  rw [hlow, hp]
  rfl

theorem boundaryOk_space_word {ch x : Char} {xs : List Char}
    (hsp : isSpaceChar ch = true) (hw : isWordChar x = true) :
    boundaryOk (some ch) (x :: xs) = true := by
  simp only [boundaryOk]
  rw [isWordChar_of_space hsp, hw]
  rfl

theorem searchFrom_append (pat : List RItem) :
    ∀ (pre : List Char) (prev : Option Char) (c : Char) (t : List Char),
      matchItems pat (some c) t [] ≠ none →
      searchFrom pat prev (pre ++ c :: t) ≠ none := by
  intro pre
  induction pre with
  | nil =>
      intro prev c t h
      exact searchFrom_tail_ne (searchFrom_head_ne h)
  | cons d pre' ih =>
      intro prev c t h
      exact searchFrom_tail_ne (ih (some d) c t h)

theorem searchFrom_elemcls_to_cls :
    ∀ (s : List Char) (prev : Option Char),
      searchFrom elemClsPat prev s ≠ none → searchFrom clsPat prev s ≠ none := by
  intro s
  induction s with
  | nil =>
      intro prev h
      exfalso
      cases hm : matchItems elemClsPat prev [] [] with
      | none =>
          apply h
          rw [searchFrom]
          exact hm
      | some r =>
          have hr : matchItems (.wordB :: .litw "element".toList :: .plus .ws :: clsTail)
              prev [] [] = some r := hm
          obtain ⟨hb, hr1⟩ := matchItems_wordB hr
          obtain ⟨he1, _⟩ := matchItems_litw_some hr1
          have hel : "element".toList = 'e' :: "lement".toList := rfl
          rw [hel] at he1
          obtain ⟨x, xs, hx, _⟩ := eatLit_head he1
          exact absurd hx (by simp)
  | cons c cs ih =>
      intro prev h
      cases hm : matchItems elemClsPat prev (c :: cs) [] with
      | none =>
          exact searchFrom_tail_ne (ih (some c) (searchFrom_cons_ne h hm))
      | some r =>
          have hr : matchItems (.wordB :: .litw "element".toList :: .plus .ws :: clsTail)
              prev (c :: cs) [] = some r := hm
          obtain ⟨hb, hr1⟩ := matchItems_wordB hr
          obtain ⟨he1, hr2⟩ := matchItems_litw_some hr1
          obtain ⟨k, ch, hk1, hk2, hlast, hsp, hr3⟩ := matchItems_plus_some hr2
          have hr3' : matchItems (.litw "with".toList :: [.plus .ws, .litw "class".toList,
              .plus .ws, .opt .quote, .grpPlus .classTok, .opt .quote]) (some ch)
              (((c :: cs).drop ("element".toList).length).drop k) [] = some r := hr3
          obtain ⟨he2, _⟩ := matchItems_litw_some hr3'
          have hwl : "with".toList = 'w' :: "ith".toList := rfl
          rw [hwl] at he2
          obtain ⟨x, xs, hx, hlm⟩ := eatLit_head he2
          have hw : isWordChar x = true := isWordChar_of_litMatch (by decide) hlm
          have hbnd : boundaryOk (some ch)
              (((c :: cs).drop ("element".toList).length).drop k) = true := by
            rw [hx]
            exact boundaryOk_space_word hsp hw
          have hcls : matchItems clsPat (some ch)
              (((c :: cs).drop ("element".toList).length).drop k) [] = some r := by
            show matchItems (.wordB :: clsTail) (some ch)
              (((c :: cs).drop ("element".toList).length).drop k) [] = some r
            simp only [matchItems, hbnd, if_true]
            exact hr3
          obtain ⟨l2, hl2⟩ := List.getLast?_eq_some_iff.mp hlast
          have hs1 : (c :: cs).drop ("element".toList).length
              = (l2 ++ [ch]) ++ ((c :: cs).drop ("element".toList).length).drop k := by
            rw [← hl2]
            exact (List.take_append_drop k ((c :: cs).drop ("element".toList).length)).symm
          have hgen : ∀ tt : List Char,
              (c :: cs).drop ("element".toList).length = l2 ++ [ch] ++ tt →
              (c :: cs) = ((c :: cs).take ("element".toList).length ++ l2) ++ ch :: tt := by
            intro tt htt
            conv_lhs => rw [← List.take_append_drop ("element".toList).length (c :: cs)]
            rw [htt]
            simp only [List.append_assoc, List.singleton_append]
          have hs := hgen (((c :: cs).drop ("element".toList).length).drop k) hs1
          rw [hs]
          apply searchFrom_append
          rw [hcls]
          simp

end SelGen

namespace SelGen

theorem reSearch_elemcls_none_of_cls_none {step : String}
    (h : reSearch clsPat step = none) : reSearch elemClsPat step = none := by
  by_contra h4
  have h3 : reSearch clsPat step ≠ none := by
    unfold reSearch at h4 ⊢
    exact searchFrom_elemcls_to_cls step.toList none h4
  exact h3 h

/-- C10: rule 4 is dead logic. The extraction function with rule 4 removed
from the ordered pattern table is extensionally equal to the source extraction
function: whenever rule 4's pattern matches a step, rule 3's pattern also
matches (it is the tail of rule 4's pattern beginning at its with-token, whose
preceding whitespace guarantees the word boundary), and rule 3 is tried
earlier, so rule 4 can never be the first matching rule. -/
theorem c10_rule4_dead (step : String) :
    extract_element_reference_norule4 step = extract_element_reference step := by
  unfold extract_element_reference extract_element_reference_norule4
  have hfs : patternTableNoRule4.findSome? (fun pk =>
        (reSearch pk.1 step).map (fun caps => mkRef pk.2 (pyStrip (caps.getD 0 ""))))
      = patternTable.findSome? (fun pk =>
        (reSearch pk.1 step).map (fun caps => mkRef pk.2 (pyStrip (caps.getD 0 "")))) := by
    simp only [patternTable, patternTableNoRule4]
    cases h1 : reSearch idPat step with
    | some c1 => simp only [List.findSome?_cons, h1, Option.map_some']
    | none =>
        cases h2 : reSearch namePat step with
        | some c2 =>
            simp only [List.findSome?_cons, h1, h2, Option.map_some', Option.map_none']
        | none =>
            cases h3 : reSearch clsPat step with
            | some c3 =>
                simp only [List.findSome?_cons, h1, h2, h3, Option.map_some', Option.map_none']
            | none =>
                have h4 := reSearch_elemcls_none_of_cls_none h3
                simp only [List.findSome?_cons, h1, h2, h3, h4, Option.map_none']
  rw [hfs]

end SelGen
